import Mathlib

/-!
Verification development for the lab-spend-ledger ingestion pipeline
(scripts `watch_buy_and_append.py`, `ledger_dedupe.py`,
`parse_purchase_message.py`, `graph_excel_append.py`).

The Python scripts are embedded shallowly:
* file system reads become `Option String` arguments (`none` = file absent);
* `json.loads` becomes a decoder argument `String → Option τ`
  (`none` = the text is not valid structured data, i.e. `json.loads` raises);
* the subprocess calls of the orchestrator (`run_parser`, `run_append`,
  `dedupe_check`/`dedupe_mark`) become explicit function arguments and
  explicit state threading;
* Python floats carrying money amounts and confidences become `Rat`
  (exact; the scripts only compare and copy these values);
* the wall clock (`datetime.now`) becomes an explicit `String` argument.
-/

/-! ## `watch_buy_and_append.py`: data model -/

/-- A candidate message, as produced by `parse_candidate` in
`watch_buy_and_append.py` (a message that mentions the target group id,
carries a `[message_id: N]` tag and whose cleaned text contains "buy"). -/
structure Cand where
  message_id : Nat
  author_name : String
  author_id : String
  raw_text : String
deriving DecidableEq

/-- One transcript message object as the orchestrator iterates it:
`parse_candidate` either rejects it (`cand = none`) or yields a candidate;
`ts_ms` is `int((o.get("message") or \x7b\x7d).get("timestamp") or 0)`. -/
structure MsgObj where
  cand : Option Cand
  ts_ms : Nat
deriving DecidableEq

/-- The draft JSON returned by the `parse_purchase_message.py` subprocess,
restricted to the fields the orchestrator reads
(`item`, `total`, `currency`, `category`, `project_code`,
`needs_clarification`). -/
structure OrchDraft where
  item : String
  total : Rat
  currency : String
  category : String
  project_code : String
  needs_clarification : Bool
deriving DecidableEq

/-- The argument list handed to `run_append` (which shells out to
`log_spend_to_excel.py`), including the receipt computed inside
`run_append`. -/
structure Row where
  ts_iso : String
  chat_id : String
  message_id : Nat
  author_id : String
  author_name : String
  item : String
  price : Rat
  currency : String
  category : String
  project_code : String
  notes : String
  raw_text : String
  receipt : String
deriving DecidableEq

/-- The JSON summary printed by `log_spend_to_excel.py`, restricted to the
fields the orchestrator reads back (`res.get("receipt")`,
`res.get("excel_index")`). -/
structure AppendRes where
  receipt : Option String
  excel_index : Option Int
deriving DecidableEq

/-- One element of the run summary list `appended`. -/
structure AppendedEntry where
  message_id : Nat
  receipt : Option String
  excel_index : Option Int
deriving DecidableEq

/-- The run environment of one invocation of `watch_buy_and_append.py`:
command line arguments plus the external collaborators
(draft extractor subprocess and append subprocess) modelled as functions
(`none` = the subprocess failed, raising inside `run_parser`/`run_append`),
plus the wall clock used for the `ts_ms = 0` fallback. -/
structure RunEnv where
  group_id : String
  maxN : Nat
  init_only : Bool
  parserFn : String → Option OrchDraft
  appendFn : Row → Option AppendRes
  now_iso : String

/-- `dedupe_key = "telegram:{group_id}:message:{mid}"`. -/
def dedupKey (g : String) (mid : Nat) : String :=
  "telegram:" ++ g ++ ":message:" ++ toString mid

/-- `receipt = "telegram:{chat_id}:{message_id}"` (computed in `run_append`). -/
def mkReceipt (g : String) (mid : Nat) : String :=
  "telegram:" ++ g ++ ":" ++ toString mid

/-- Zero-pad a number to two digits. -/
def pad2 (n : Nat) : String :=
  if n < 10 then "0" ++ toString n else toString n

/-- Zero-pad a number to four digits. -/
def pad4 (n : Nat) : String :=
  if n < 10 then "000" ++ toString n
  else if n < 100 then "00" ++ toString n
  else if n < 1000 then "0" ++ toString n
  else toString n

/-- `utc_iso_from_ms`: render an epoch-millisecond stamp as
`YYYY-MM-DDTHH:MM:SSZ` (the microsecond-stripped ISO form the script
produces).  The civil-date computation is the standard days-to-civil
algorithm; it stands in for `datetime.fromtimestamp(ms / 1000, utc)`. -/
def utc_iso_from_ms (ms : Nat) : String :=
  let sec := ms / 1000
  let days := sec / 86400
  let rem := sec % 86400
  let hh := rem / 3600
  let mi := rem % 3600 / 60
  let ss := rem % 60
  let z := days + 719468
  let era := z / 146097
  let doe := z % 146097
  let yoe := (doe - doe / 1460 + doe / 36524 - doe / 146096) / 365
  let y0 := yoe + era * 400
  let doy := doe - (365 * yoe + yoe / 4 - yoe / 100)
  let mp := (5 * doy + 2) / 153
  let d := doy - (153 * mp + 2) / 5 + 1
  let m := if mp < 10 then mp + 3 else mp - 9
  let y := if m ≤ 2 then y0 + 1 else y0
  pad4 y ++ "-" ++ pad2 m ++ "-" ++ pad2 d ++ "T" ++
    pad2 hh ++ ":" ++ pad2 mi ++ ":" ++ pad2 ss ++ "Z"

/-- Build the `run_append` argument list for a candidate whose draft came
back complete (lines 318-334 of `watch_buy_and_append.py`): `ts_iso` is
derived from the message timestamp, falling back to the wall clock when
the timestamp is absent or zero. -/
def buildRow (env : RunEnv) (m : MsgObj) (c : Cand) (d : OrchDraft) : Row :=
  { ts_iso := if m.ts_ms ≠ 0 then utc_iso_from_ms m.ts_ms else env.now_iso
    chat_id := env.group_id
    message_id := c.message_id
    author_id := c.author_id
    author_name := c.author_name
    item := d.item
    price := d.total
    currency := d.currency
    category := d.category
    project_code := d.project_code
    notes := ""
    raw_text := c.raw_text
    receipt := mkReceipt env.group_id c.message_id }

/-- The mutable state of the pass-2 loop of `main`: the watermark tracking
variable `last_mid`, the dedup store contents (set of marked keys), and
the `appended` summary list.  `evaluated` is a ghost observation recording,
in processing order, the message ids that passed the
`mid <= last_mid` gate (it influences nothing). -/
structure LoopSt where
  last_mid : Int
  dedup : List String
  appended : List AppendedEntry
  evaluated : List Nat
deriving DecidableEq

/-- One iteration of the pass-2 loop body of `main`
(`watch_buy_and_append.py` lines 293-341): skip non-candidates, skip
messages at or below the watermark, skip (but advance past) dedup hits,
skip parse failures, skip incomplete drafts, and on a successful append
record the summary entry, mark the dedup store and advance the watermark.
Each `continue` of the source is a branch returning the (possibly partly
updated) state. -/
def step (env : RunEnv) (st : LoopSt) (m : MsgObj) : LoopSt :=
  match m.cand with
  | none => st
  | some c =>
    if (c.message_id : Int) ≤ st.last_mid then st
    else
      let key := dedupKey env.group_id c.message_id
      if key ∈ st.dedup then
        { st with last_mid := max st.last_mid (c.message_id : Int)
                  evaluated := st.evaluated ++ [c.message_id] }
      else
        match env.parserFn c.raw_text with
        | none => { st with evaluated := st.evaluated ++ [c.message_id] }
        | some d =>
          if d.needs_clarification then
            { st with evaluated := st.evaluated ++ [c.message_id] }
          else
            match env.appendFn (buildRow env m c d) with
            | none => { st with evaluated := st.evaluated ++ [c.message_id] }
            | some res =>
              { last_mid := max st.last_mid (c.message_id : Int)
                dedup := st.dedup ++ [key]
                appended := st.appended ++
                  [{ message_id := c.message_id
                     receipt := res.receipt
                     excel_index := res.excel_index }]
                evaluated := st.evaluated ++ [c.message_id] }

/-- The pass-2 loop of `main` over the flattened message stream, with the
per-run cap: after each message, stop once `len(appended) >= args.max`. -/
def runLoop (env : RunEnv) (st : LoopSt) : List MsgObj → LoopSt
  | [] => st
  | m :: ms =>
    let st' := step env st m
    if env.maxN ≤ st'.appended.length then st' else runLoop env st' ms

/-- Pass 1 of `main`: `seen_max_mid` starts at `last_mid` and takes the
maximum over every candidate message id. -/
def seenMaxMid (lastMid : Int) (msgs : List MsgObj) : Int :=
  msgs.foldl
    (fun acc m =>
      match m.cand with
      | none => acc
      | some c => max acc (c.message_id : Int))
    lastMid

/-- The observable outcome of one run of `main`: the persisted watermark
state after the run (`none` = the state file still has no
`last_message_id`), the dedup store contents, the `appended` summary and
the ghost evaluation trace. -/
structure RunRes where
  persisted : Option Int
  dedup : List String
  appended : List AppendedEntry
  evaluated : List Nat
deriving DecidableEq

/-- `main` of `watch_buy_and_append.py`: `state0` is the persisted
`last_message_id` (`none` when the key is absent, i.e. a first run),
`dedup0` the dedup store contents, `msgs` the flattened candidate stream
(files sorted by mtime, lines in order).  First the init path
(`--init-only`, or first run with a positive maximum observed id) persists
the maximum and appends nothing; otherwise pass 2 runs and the state file
is rewritten only when `last_mid` changed. -/
def watchMain (env : RunEnv) (state0 : Option Int) (dedup0 : List String)
    (msgs : List MsgObj) : RunRes :=
  let last_mid : Int := state0.getD 0
  let seen_max := seenMaxMid last_mid msgs
  if env.init_only = true ∨ (state0 = none ∧ 0 < seen_max) then
    { persisted := some seen_max
      dedup := dedup0
      appended := []
      evaluated := [] }
  else
    let fin := runLoop env { last_mid := last_mid, dedup := dedup0,
                             appended := [], evaluated := [] } msgs
    { persisted := if fin.last_mid = state0.getD 0 then state0
                   else some fin.last_mid
      dedup := fin.dedup
      appended := fin.appended
      evaluated := fin.evaluated }

/-- Would this message, if it reached the parse-and-append stage with the
run environment `env`, result in a successful commit?  (The branch of
`step` that is taken is a function of the message alone, because the row
handed to the append client does not depend on the loop state.) -/
def commits (env : RunEnv) (m : MsgObj) : Bool :=
  match m.cand with
  | none => false
  | some c =>
    match env.parserFn c.raw_text with
    | none => false
    | some d =>
      if d.needs_clarification then false
      else (env.appendFn (buildRow env m c d)).isSome

/-- The candidate message ids of a stream, in stream order. -/
def candMids (msgs : List MsgObj) : List Nat :=
  (msgs.filterMap MsgObj.cand).map Cand.message_id

/-! ## `watch_buy_and_append.py`: `load_state` -/

/-- The watermark state dict, restricted to the one key the script uses. -/
structure WatchState where
  lastMessageId : Option Int
deriving DecidableEq

/-- `load_state`: a missing file yields `\x7b\x7d`; an existing file is
decoded with `json.loads`, and any failure is swallowed
(`except Exception: return \x7b\x7d`), silently resetting the state.
`jp` models `json.loads` plus field extraction (`none` = raises). -/
def load_state (file : Option String) (jp : String → Option WatchState) :
    WatchState :=
  match file with
  | none => { lastMessageId := none }
  | some s =>
    match jp s with
    | some st => st
    | none => { lastMessageId := none }

/-! ## `ledger_dedupe.py` -/

/-- Metadata stored with a marked key, as a flat string map (the script
never reads it back; only key membership matters). -/
abbrev MetaJson := List (String × String)

/-- The persisted dedup mapping: `\x7b"version": 1, "seen": \x7b...\x7d\x7d`. -/
structure DedupData where
  version : Int
  seen : List (String × MetaJson)

/-- Failure of `load` in `ledger_dedupe.py` (a `json.loads` error on an
existing file propagates and kills the process). -/
inductive StorageErr where
  | corrupt
deriving DecidableEq

/-- `load` of `ledger_dedupe.py`: a missing file yields the fresh
`\x7b"version": 1, "seen": \x7b\x7d\x7d`; an existing file is decoded with
`json.loads`, and a decode failure propagates (fatal). -/
def dedupeLoad (file : Option String) (jp : String → Option DedupData) :
    Except StorageErr DedupData :=
  match file with
  | none => .ok { version := 1, seen := [] }
  | some s =>
    match jp s with
    | some d => .ok d
    | none => .error .corrupt

/-- The two CLI modes of `ledger_dedupe.py`. -/
inductive DedupeMode where
  | check
  | mark

/-- `meta.setdefault("marked_at", now_iso())`. -/
def setdefaultMarkedAt (meta : MetaJson) (now : String) : MetaJson :=
  if meta.any (fun kv => kv.1 = "marked_at") then meta
  else meta ++ [("marked_at", now)]

/-- Dict assignment `seen[key] = meta`: overwrite an existing binding or
add a new one. -/
def upsertSeen (seen : List (String × MetaJson)) (key : String)
    (v : MetaJson) : List (String × MetaJson) :=
  if seen.any (fun kv => kv.1 = key) then
    seen.map (fun kv => if kv.1 = key then (key, v) else kv)
  else seen ++ [(key, v)]

/-- `main` of `ledger_dedupe.py`.  Returns the exit code (10 = already
seen) or the fatal load error, together with the state file content after
the invocation.  `check` only loads and reports; `mark` rewrites the file
through the encoder `jpr`. -/
def dedupeMain (mode : DedupeMode) (key : String) (metaArg : Option MetaJson)
    (now : String) (file : Option String)
    (jp : String → Option DedupData) (jpr : DedupData → String) :
    Except StorageErr Nat × Option String :=
  match dedupeLoad file jp with
  | .error e => (.error e, file)
  | .ok data =>
    match mode with
    | .check =>
      if data.seen.any (fun kv => kv.1 = key) then (.ok 10, file)
      else (.ok 0, file)
    | .mark =>
      let meta := setdefaultMarkedAt (metaArg.getD []) now
      let data' := { data with seen := upsertSeen data.seen key meta }
      (.ok 0, some (jpr data'))

/-! ## `parse_purchase_message.py` -/

/-- The four heuristic extractors (`find_project`,
`find_currency_and_amount`, `find_category`, `guess_item`) as a record of
pure functions of the input text.  The spec treats the heuristic
field-parsing rules as a black-box classifier; each returns its extracted
value(s) and a confidence. -/
structure Heuristics where
  find_project : String → Option String × Rat
  find_currency_and_amount : String → Option String × Option Rat × Rat
  find_category : String → Option String × Rat
  guess_item : String → Option String × Rat

/-- The full JSON object printed by `parse_purchase_message.py`. -/
structure ParsedDraft where
  timestamp_utc : String
  raw_text : String
  item : Option String
  total : Option Rat
  currency : Option String
  category : Option String
  project_code : Option String
  confidence : Rat
  missing_fields : List String
  needs_clarification : Bool
deriving DecidableEq

/-- `round(conf, 2)` modelled on exact rationals (tie behavior is
immaterial here: the function is applied to a fixed argument). -/
def round2 (q : Rat) : Rat := (round (q * 100) : Int) / 100

/-- `parse` of `parse_purchase_message.py` (lines 170-199): run the four
extractors, take the maximum confidence, collect the missing field names
in order, and assemble the output — including `timestamp_utc`, which is
the current wall clock `_now_iso()`, passed here explicitly as `now`. -/
def parse (H : Heuristics) (now : String) (text : String) : ParsedDraft :=
  let pj := H.find_project text
  let ca := H.find_currency_and_amount text
  let cat := H.find_category text
  let it := H.guess_item text
  let conf := max (max (max pj.2 ca.2.2) cat.2) it.2
  let missing :=
    (if it.1 = none then ["item"] else []) ++
    (if ca.2.1 = none then ["amount"] else []) ++
    (if cat.1 = none then ["category"] else []) ++
    (if pj.1 = none then ["project_code"] else [])
  { timestamp_utc := now
    raw_text := text.trim
    item := it.1
    total := ca.2.1
    currency := ca.1
    category := cat.1
    project_code := pj.1
    confidence := round2 conf
    missing_fields := missing
    needs_clarification := 0 < missing.length }

/-! ## `graph_excel_append.py` -/

/-- A table cell as the emptiness test sees it: `none` models a JSON
`null`, `some s` models any other value rendered with `str(v)`. -/
abbrev Cell := Option String

/-- A row is "empty" iff every cell is null or blank after trimming
(`(v is None) or (str(v).strip() == "")`); a string strips to the empty
string exactly when every character is whitespace. -/
def rowIsEmpty (cells : List Cell) : Bool :=
  cells.all fun v =>
    match v with
    | none => true
    | some s => s.toList.all Char.isWhitespace

/-- The scan of `main` over the rows returned by
`list_rows(..., top=2000)`: walk at most `top` rows from row index `i`
upward and return the index of the first empty row (`break` at the first
hit), `none` otherwise. -/
def findEmptyFrom (i : Nat) (top : Nat) : List (List Cell) → Option Nat
  | [] => none
  | r :: rs =>
    match top with
    | 0 => none
    | top' + 1 =>
      if rowIsEmpty r then some i else findEmptyFrom (i + 1) top' rs

/-- `empty_index` as computed by `main` of `graph_excel_append.py`:
the first empty row among the (at most) first 2000 table rows. -/
def firstEmptyIndex (table : List (List Cell)) : Option Nat :=
  findEmptyFrom 0 2000 table

/-- The summary `main` prints: the mode line and, in fill mode, the filled
row index. -/
structure GraphOut where
  mode : String
  filled_index : Option Nat
deriving DecidableEq

/-- The commit operation of `graph_excel_append.py` `main`
(lines 252-292), with the remote table as explicit state: with
`--fill-first-empty`, overwrite the first empty row in place when one is
found in the scan, else append at the bottom; without the flag, always
append at the bottom. -/
def graphCommit (fill_first_empty : Bool) (table : List (List Cell))
    (row : List Cell) : GraphOut × List (List Cell) :=
  if fill_first_empty then
    match firstEmptyIndex table with
    | some i =>
      ({ mode := "fill-first-empty", filled_index := some i }, table.set i row)
    | none =>
      ({ mode := "append-bottom", filled_index := none }, table ++ [row])
  else
    ({ mode := "append-bottom", filled_index := none }, table ++ [row])

/-! ## Derived predicates and concrete instances -/

/-- Invariant tying the summary list to the watermark: every recorded id
is at or below the watermark, and the recorded ids are strictly
increasing in list order. -/
def appendedInv (st : LoopSt) : Prop :=
  (∀ e ∈ st.appended, (e.message_id : Int) ≤ st.last_mid) ∧
  (st.appended.map AppendedEntry.message_id).Pairwise (· < ·)

/-- A fresh loop state for a given starting watermark and dedup store. -/
def initSt (l : Int) (d : List String) : LoopSt :=
  { last_mid := l, dedup := d, appended := [], evaluated := [] }

/-- An environment whose extractor always returns a complete draft and
whose append client always succeeds. -/
def envOk : RunEnv :=
  { group_id := "g", maxN := 5, init_only := false,
    parserFn := fun _ => some
      { item := "it", total := 1, currency := "AUD",
        category := "Lab consumables", project_code := "DE",
        needs_clarification := false },
    appendFn := fun _ => some { receipt := some "rcpt", excel_index := some 3 },
    now_iso := "2026-02-03T00:00:00Z" }

/-- A one-candidate transcript (message id 1). -/
def msgsC1 : List MsgObj :=
  [⟨some ⟨1, "Ann", "7", "buy x"⟩, 0⟩]

/-- An environment whose append client fails exactly on message id 5. -/
def envC2 : RunEnv :=
  { group_id := "g", maxN := 50, init_only := false,
    parserFn := fun _ => some
      { item := "it", total := 1, currency := "AUD", category := "c",
        project_code := "DE", needs_clarification := false },
    appendFn := fun r =>
      if r.message_id = 5 then none
      else some { receipt := some "rcpt", excel_index := some 3 },
    now_iso := "T" }

/-- The draft `envC2.parserFn` returns for every text. -/
def draftC2 : OrchDraft :=
  { item := "it", total := 1, currency := "AUD", category := "c",
    project_code := "DE", needs_clarification := false }

/-- The candidate whose commit fails under `envC2`. -/
def candC2 : Cand :=
  { message_id := 5, author_name := "a", author_id := "7", raw_text := "buy a" }

/-- Message 5 (commit fails under `envC2`). -/
def msgC2a : MsgObj := { cand := some candC2, ts_ms := 0 }

/-- Message 6 (commit succeeds under `envC2`). -/
def msgC2b : MsgObj := ⟨some ⟨6, "a", "7", "buy b"⟩, 0⟩

/-- An environment whose extractor always reports an incomplete draft. -/
def envC3 : RunEnv :=
  { group_id := "g", maxN := 50, init_only := false,
    parserFn := fun _ => some
      { item := "", total := 0, currency := "", category := "",
        project_code := "", needs_clarification := true },
    appendFn := fun _ => some { receipt := some "rcpt", excel_index := some 0 },
    now_iso := "T" }

/-- The draft `envC3.parserFn` returns for every text. -/
def draftC3 : OrchDraft :=
  { item := "", total := 0, currency := "", category := "",
    project_code := "", needs_clarification := true }

/-- The candidate whose draft stays incomplete under `envC3`. -/
def candC3 : Cand :=
  { message_id := 5, author_name := "a", author_id := "7", raw_text := "buy ?" }

/-- A one-candidate transcript (message id 5) for the incomplete-draft run. -/
def msgsC3 : List MsgObj := [⟨some candC3, 0⟩]

/-- An environment whose extractor reports an incomplete draft exactly
for the text "buy a" and a complete draft for any other text, with an
always-successful append client. -/
def envC3b : RunEnv :=
  { group_id := "g", maxN := 50, init_only := false,
    parserFn := fun t =>
      if t = "buy a" then
        some { item := "", total := 0, currency := "", category := "",
               project_code := "", needs_clarification := true }
      else
        some { item := "it", total := 1, currency := "AUD", category := "c",
               project_code := "DE", needs_clarification := false },
    appendFn := fun _ => some { receipt := some "rcpt", excel_index := some 6 },
    now_iso := "T" }

/-- A two-candidate transcript: message 5 ("buy a", incomplete under
`envC3b`) followed by message 6 ("buy b", complete under `envC3b`). -/
def msgsC3b : List MsgObj :=
  [⟨some ⟨5, "a", "7", "buy a"⟩, 0⟩, ⟨some ⟨6, "b", "8", "buy b"⟩, 0⟩]

/-- A one-candidate transcript whose only candidate carries message id 0. -/
def msgsC6x : List MsgObj := [⟨some ⟨0, "a", "7", "buy a"⟩, 0⟩]

/-- A two-candidate transcript with positive, ascending message ids. -/
def msgsC6w : List MsgObj :=
  [⟨some ⟨3, "a", "7", "buy a"⟩, 0⟩, ⟨some ⟨7, "b", "8", "buy b"⟩, 0⟩]

/-- A transcript whose candidates appear in descending id order (id 10
before id 5). -/
def msgsC8 : List MsgObj :=
  [⟨some ⟨10, "a", "7", "buy a"⟩, 0⟩, ⟨some ⟨5, "b", "8", "buy b"⟩, 0⟩]

/-- The same two candidates in ascending id order. -/
def msgsC8w : List MsgObj :=
  [⟨some ⟨5, "b", "8", "buy b"⟩, 0⟩, ⟨some ⟨10, "a", "7", "buy a"⟩, 0⟩]

/-- A heuristics instance that extracts nothing (the simplest concrete
black-box classifier). -/
def H0 : Heuristics :=
  { find_project := fun _ => (none, 0),
    find_currency_and_amount := fun _ => (none, none, 0),
    find_category := fun _ => (none, 0),
    guess_item := fun _ => (none, 0) }

/-- A 2001-row table whose only empty row is the last one (index 2000,
beyond the 2000-row scan window of `list_rows`). -/
def bigTable : List (List Cell) :=
  List.replicate 2000 [some "x"] ++ [[none]]

/-! ## Helper lemmas about the orchestrator loop -/

/-- Exhaustive description of one loop iteration: either the message is a
non-candidate or sits at or below the watermark (state unchanged), or it
is above the watermark and is a dedup hit (watermark advanced), is
non-committing (parse failure, incomplete draft or append failure; state
unchanged apart from the ghost trace), or commits (summary entry, dedup
mark and watermark advance). -/
theorem step_cases (env : RunEnv) (st : LoopSt) (m : MsgObj) :
    (step env st m = st ∧
      (m.cand = none ∨
        ∃ c, m.cand = some c ∧ (c.message_id : Int) ≤ st.last_mid)) ∨
    (∃ c, m.cand = some c ∧ st.last_mid < (c.message_id : Int) ∧
      ((step env st m =
          { st with last_mid := max st.last_mid (c.message_id : Int),
                    evaluated := st.evaluated ++ [c.message_id] } ∧
        dedupKey env.group_id c.message_id ∈ st.dedup) ∨
       (step env st m = { st with evaluated := st.evaluated ++ [c.message_id] } ∧
        commits env m = false) ∨
       (∃ d res, env.parserFn c.raw_text = some d ∧
          d.needs_clarification = false ∧
          env.appendFn (buildRow env m c d) = some res ∧
          dedupKey env.group_id c.message_id ∉ st.dedup ∧
          step env st m =
            { last_mid := max st.last_mid (c.message_id : Int),
              dedup := st.dedup ++ [dedupKey env.group_id c.message_id],
              appended := st.appended ++
                [{ message_id := c.message_id, receipt := res.receipt,
                   excel_index := res.excel_index }],
              evaluated := st.evaluated ++ [c.message_id] }))) := by
  rcases hc : m.cand with _ | c
  · exact Or.inl ⟨by simp [step, hc], Or.inl rfl⟩
  · by_cases h1 : (c.message_id : Int) ≤ st.last_mid
    · exact Or.inl ⟨by simp [step, hc, h1], Or.inr ⟨c, rfl, h1⟩⟩
    · refine Or.inr ⟨c, rfl, lt_of_not_le h1, ?_⟩
      by_cases h2 : dedupKey env.group_id c.message_id ∈ st.dedup
      · exact Or.inl ⟨by simp [step, hc, h1, h2], h2⟩
      · rcases hp : env.parserFn c.raw_text with _ | d
        · exact Or.inr (Or.inl ⟨by simp [step, hc, h1, h2, hp],
            by simp [commits, hc, hp]⟩)
        · by_cases h3 : d.needs_clarification
          · exact Or.inr (Or.inl ⟨by simp [step, hc, h1, h2, hp, h3],
              by simp [commits, hc, hp, h3]⟩)
          · rcases ha : env.appendFn (buildRow env m c d) with _ | res
            · exact Or.inr (Or.inl ⟨by simp [step, hc, h1, h2, hp, h3, ha],
                by simp [commits, hc, hp, h3, ha]⟩)
            · exact Or.inr (Or.inr ⟨d, res, rfl, by simpa using h3, ha, h2,
                by simp [step, hc, h1, h2, hp, h3, ha]⟩)

/-- The watermark tracking variable never decreases over one iteration. -/
theorem step_last_mid_le (env : RunEnv) (st : LoopSt) (m : MsgObj) :
    st.last_mid ≤ (step env st m).last_mid := by
  rcases step_cases env st m with ⟨h, _⟩ |
    ⟨c, _, _, ⟨h, _⟩ | ⟨h, _⟩ | ⟨d, res, _, _, _, _, h⟩⟩ <;> rw [h] <;>
    simp [le_max_left]

/-- One iteration only ever appends to the summary list. -/
theorem step_appended_sfx (env : RunEnv) (st : LoopSt) (m : MsgObj) :
    ∃ t, (step env st m).appended = st.appended ++ t := by
  rcases step_cases env st m with ⟨h, _⟩ |
    ⟨c, _, _, ⟨h, _⟩ | ⟨h, _⟩ | ⟨d, res, _, _, _, _, h⟩⟩ <;> rw [h]
  · exact ⟨[], by simp⟩
  · exact ⟨[], by simp⟩
  · exact ⟨[], by simp⟩
  · exact ⟨_, rfl⟩

/-- One iteration only ever appends to the dedup store. -/
theorem step_dedup_sfx (env : RunEnv) (st : LoopSt) (m : MsgObj) :
    ∃ t, (step env st m).dedup = st.dedup ++ t := by
  rcases step_cases env st m with ⟨h, _⟩ |
    ⟨c, _, _, ⟨h, _⟩ | ⟨h, _⟩ | ⟨d, res, _, _, _, _, h⟩⟩ <;> rw [h]
  · exact ⟨[], by simp⟩
  · exact ⟨[], by simp⟩
  · exact ⟨[], by simp⟩
  · exact ⟨_, rfl⟩

/-- One iteration extends the ghost trace by a sub-sequence of the
message's candidate ids. -/
theorem step_evaluated_sfx (env : RunEnv) (st : LoopSt) (m : MsgObj) :
    ∃ t, (step env st m).evaluated = st.evaluated ++ t ∧
      t.Sublist (candMids [m]) := by
  rcases step_cases env st m with ⟨h, _⟩ |
    ⟨c, hc, _, ⟨h, _⟩ | ⟨h, _⟩ | ⟨d, res, _, _, _, _, h⟩⟩ <;> rw [h]
  · exact ⟨[], by simp, List.nil_sublist _⟩
  all_goals exact ⟨[c.message_id], rfl, by simp [candMids, hc]⟩

/-- The watermark tracking variable never decreases over a run. -/
theorem runLoop_last_mid_le (env : RunEnv) :
    ∀ (ms : List MsgObj) (st : LoopSt),
      st.last_mid ≤ (runLoop env st ms).last_mid := by
  intro ms
  induction ms with
  | nil => intro st; exact le_refl _
  | cons m ms ih =>
    intro st
    dsimp only [runLoop]
    split
    · exact step_last_mid_le env st m
    · exact le_trans (step_last_mid_le env st m) (ih _)

/-- A run only ever appends to the summary list. -/
theorem runLoop_appended_sfx (env : RunEnv) :
    ∀ (ms : List MsgObj) (st : LoopSt),
      ∃ t, (runLoop env st ms).appended = st.appended ++ t := by
  intro ms
  induction ms with
  | nil => intro st; exact ⟨[], by simp [runLoop]⟩
  | cons m ms ih =>
    intro st
    dsimp only [runLoop]
    split
    · exact step_appended_sfx env st m
    · obtain ⟨t1, h1⟩ := step_appended_sfx env st m
      obtain ⟨t2, h2⟩ := ih (step env st m)
      exact ⟨t1 ++ t2, by rw [h2, h1, List.append_assoc]⟩

/-- A run only ever appends to the dedup store. -/
theorem runLoop_dedup_sfx (env : RunEnv) :
    ∀ (ms : List MsgObj) (st : LoopSt),
      ∃ t, (runLoop env st ms).dedup = st.dedup ++ t := by
  intro ms
  induction ms with
  | nil => intro st; exact ⟨[], by simp [runLoop]⟩
  | cons m ms ih =>
    intro st
    dsimp only [runLoop]
    split
    · exact step_dedup_sfx env st m
    · obtain ⟨t1, h1⟩ := step_dedup_sfx env st m
      obtain ⟨t2, h2⟩ := ih (step env st m)
      exact ⟨t1 ++ t2, by rw [h2, h1, List.append_assoc]⟩

/-- `candMids` distributes over concatenation. -/
theorem candMids_append (a b : List MsgObj) :
    candMids (a ++ b) = candMids a ++ candMids b := by
  simp [candMids]

/-- The ghost trace of a run extends the starting trace by a sub-sequence
of the candidate ids of the stream, in stream order. -/
theorem runLoop_evaluated_sfx (env : RunEnv) :
    ∀ (ms : List MsgObj) (st : LoopSt),
      ∃ t, (runLoop env st ms).evaluated = st.evaluated ++ t ∧
        t.Sublist (candMids ms) := by
  intro ms
  induction ms with
  | nil => intro st; exact ⟨[], by simp [runLoop], List.nil_sublist _⟩
  | cons m ms ih =>
    intro st
    have hsplit : candMids (m :: ms) = candMids [m] ++ candMids ms := by
      have := candMids_append [m] ms
      simpa using this
    dsimp only [runLoop]
    split
    · obtain ⟨t, h1, h2⟩ := step_evaluated_sfx env st m
      exact ⟨t, h1, by rw [hsplit]; exact h2.trans (List.sublist_append_left _ _)⟩
    · obtain ⟨t1, h1, hs1⟩ := step_evaluated_sfx env st m
      obtain ⟨t2, h2, hs2⟩ := ih (step env st m)
      refine ⟨t1 ++ t2, by rw [h2, h1, List.append_assoc], ?_⟩
      rw [hsplit]
      exact List.Sublist.append hs1 hs2

/-- When the cap was not reached, the capped loop is a plain fold of the
loop body over the whole stream. -/
theorem runLoop_eq_foldl (env : RunEnv) :
    ∀ (ms : List MsgObj) (st : LoopSt),
      (runLoop env st ms).appended.length < env.maxN →
      runLoop env st ms = ms.foldl (step env) st := by
  intro ms
  induction ms with
  | nil => intro st _; rfl
  | cons m ms ih =>
    intro st h
    by_cases hc : env.maxN ≤ (step env st m).appended.length
    · exfalso
      have hrun : runLoop env st (m :: ms) = step env st m := by
        dsimp only [runLoop]; rw [if_pos hc]
      rw [hrun] at h
      exact absurd hc (not_le_of_lt h)
    · have hrun : runLoop env st (m :: ms) = runLoop env (step env st m) ms := by
        dsimp only [runLoop]; rw [if_neg hc]
      rw [hrun] at h ⊢
      exact ih _ h

/-- The watermark tracking variable never decreases over a plain fold. -/
theorem foldl_last_mid_le (env : RunEnv) :
    ∀ (ms : List MsgObj) (st : LoopSt),
      st.last_mid ≤ (ms.foldl (step env) st).last_mid := by
  intro ms
  induction ms with
  | nil => intro st; exact le_refl _
  | cons m ms ih =>
    intro st
    exact le_trans (step_last_mid_le env st m) (ih (step env st m))

/-- After a full (uncapped) pass over the stream, the watermark tracking
variable is at or above the id of every candidate that would commit:
such a candidate is either skipped because the watermark is already past
it, skipped as a dedup hit (advancing the watermark), or committed
(advancing the watermark). -/
theorem foldl_commits_le (env : RunEnv) :
    ∀ (ms : List MsgObj) (st : LoopSt) (m : MsgObj) (c : Cand),
      m ∈ ms → m.cand = some c → commits env m = true →
      (c.message_id : Int) ≤ (ms.foldl (step env) st).last_mid := by
  intro ms
  induction ms with
  | nil => intro st m c hm; exact absurd hm (List.not_mem_nil m)
  | cons a ms ih =>
    intro st m c hm hc hcom
    rcases List.mem_cons.mp hm with heq | hmem
    · subst heq
      have hstep : (c.message_id : Int) ≤ (step env st m).last_mid := by
        rcases step_cases env st m with ⟨h, hor⟩ |
          ⟨c', hc', hlt, ⟨h, _⟩ | ⟨h, hcom'⟩ | ⟨d, res, _, _, _, _, h⟩⟩
        · rcases hor with hnone | ⟨c', hc', hle⟩
          · rw [hc] at hnone; exact absurd hnone (Option.some_ne_none c)
          · rw [hc] at hc'
            obtain rfl := Option.some_injective _ hc'
            rw [h]; exact hle
        · rw [hc] at hc'
          obtain rfl := Option.some_injective _ hc'
          rw [h]; exact le_max_right _ _
        · rw [hcom'] at hcom; exact absurd hcom (by simp)
        · rw [hc] at hc'
          obtain rfl := Option.some_injective _ hc'
          rw [h]; exact le_max_right _ _
      exact le_trans hstep (foldl_last_mid_le env ms (step env st m))
    · exact ih (step env st a) m c hmem hc hcom

/-- If every would-commit candidate of the stream already sits at or below
the starting watermark, a run appends nothing (and, a fortiori, marks
nothing): every message falls into a non-committing branch. -/
theorem runLoop_no_new (env : RunEnv) :
    ∀ (ms : List MsgObj) (st : LoopSt),
      (∀ m c, m ∈ ms → m.cand = some c → commits env m = true →
        (c.message_id : Int) ≤ st.last_mid) →
      (runLoop env st ms).appended = st.appended ∧
      (runLoop env st ms).dedup = st.dedup := by
  intro ms
  induction ms with
  | nil => intro st _; exact ⟨rfl, rfl⟩
  | cons a ms ih =>
    intro st H
    have hstep : (step env st a).appended = st.appended ∧
        (step env st a).dedup = st.dedup := by
      rcases step_cases env st a with ⟨h, _⟩ |
        ⟨c, hc, hlt, ⟨h, _⟩ | ⟨h, _⟩ | ⟨d, res, hp, hd, ha, hkey, h⟩⟩
      · rw [h]; exact ⟨rfl, rfl⟩
      · rw [h]; exact ⟨rfl, rfl⟩
      · rw [h]; exact ⟨rfl, rfl⟩
      · exfalso
        have hcom : commits env a = true := by
          simp [commits, hc, hp, hd, ha]
        exact absurd (H a c (List.mem_cons_self a ms) hc hcom)
          (not_le_of_lt hlt)
    dsimp only [runLoop]
    split
    · exact hstep
    · have H' : ∀ m c, m ∈ ms → m.cand = some c → commits env m = true →
          (c.message_id : Int) ≤ (step env st a).last_mid := by
        intro m c hm hc hcom
        exact le_trans (H m c (List.mem_cons_of_mem a hm) hc hcom)
          (step_last_mid_le env st a)
      obtain ⟨h1, h2⟩ := ih (step env st a) H'
      rw [h1, h2, hstep.1, hstep.2]
      exact ⟨rfl, rfl⟩

/-- One iteration preserves the summary-list invariant: a new entry's id
exceeds the current watermark, hence exceeds every recorded id. -/
theorem step_appendedInv (env : RunEnv) (st : LoopSt) (m : MsgObj)
    (hinv : appendedInv st) : appendedInv (step env st m) := by
  obtain ⟨hle, hpw⟩ := hinv
  rcases step_cases env st m with ⟨h, _⟩ |
    ⟨c, hc, hlt, ⟨h, _⟩ | ⟨h, _⟩ | ⟨d, res, _, _, _, _, h⟩⟩
  · rw [h]; exact ⟨hle, hpw⟩
  · rw [h]
    refine ⟨?_, hpw⟩
    intro e he
    exact le_trans (hle e he) (le_max_left _ _)
  · rw [h]; exact ⟨hle, hpw⟩
  · rw [h]
    constructor
    · intro e he
      rcases List.mem_append.mp he with hold | hnew
      · exact le_trans (hle e hold) (le_max_left _ _)
      · rcases List.mem_singleton.mp hnew with rfl
        exact le_max_right _ _
    · rw [List.map_append]
      rw [List.pairwise_append]
      refine ⟨hpw, List.pairwise_singleton _ _, ?_⟩
      intro x hx y hy
      rcases List.mem_singleton.mp hy with rfl
      simp only [List.map_map, List.mem_map] at hx
      obtain ⟨e, he, rfl⟩ := hx
      have h1 : ((AppendedEntry.message_id e : Nat) : Int) ≤ st.last_mid :=
        hle e he
      have h2 : st.last_mid < (c.message_id : Int) := hlt
      exact_mod_cast lt_of_le_of_lt h1 h2

/-- A run preserves the summary-list invariant. -/
theorem runLoop_appendedInv (env : RunEnv) :
    ∀ (ms : List MsgObj) (st : LoopSt),
      appendedInv st → appendedInv (runLoop env st ms) := by
  intro ms
  induction ms with
  | nil => intro st h; exact h
  | cons m ms ih =>
    intro st h
    dsimp only [runLoop]
    split
    · exact step_appendedInv env st m h
    · exact ih _ (step_appendedInv env st m h)

/-- `seen_max_mid` of pass 1 over a cons. -/
theorem seenMaxMid_cons (l : Int) (m : MsgObj) (ms : List MsgObj) :
    seenMaxMid l (m :: ms) =
      seenMaxMid
        (match m.cand with
         | none => l
         | some c => max l (c.message_id : Int)) ms := rfl

/-- `seen_max_mid` starts at `last_mid` and never drops below it. -/
theorem le_seenMaxMid : ∀ (msgs : List MsgObj) (l : Int),
    l ≤ seenMaxMid l msgs := by
  intro msgs
  induction msgs with
  | nil => intro l; exact le_refl _
  | cons m ms ih =>
    intro l
    rw [seenMaxMid_cons]
    rcases hc : m.cand with _ | c
    · exact ih l
    · exact le_trans (le_max_left _ _) (ih _)

/-- `seen_max_mid` dominates every candidate id of the stream. -/
theorem seenMaxMid_ge : ∀ (msgs : List MsgObj) (l : Int) (m : MsgObj) (c : Cand),
    m ∈ msgs → m.cand = some c → (c.message_id : Int) ≤ seenMaxMid l msgs := by
  intro msgs
  induction msgs with
  | nil => intro l m c hm; exact absurd hm (List.not_mem_nil m)
  | cons a ms ih =>
    intro l m c hm hc
    rcases List.mem_cons.mp hm with heq | hmem
    · subst heq
      rw [seenMaxMid_cons, hc]
      exact le_trans (le_max_right _ _) (le_seenMaxMid ms _)
    · rw [seenMaxMid_cons]
      exact ih _ m c hmem hc

/-- Unfolding of `main` on the init path (`--init-only`, or a first run
that observed a positive maximum id): the maximum is persisted and
nothing is appended. -/
theorem watchMain_init (env : RunEnv) (s0 : Option Int) (d0 : List String)
    (msgs : List MsgObj)
    (h : env.init_only = true ∨ (s0 = none ∧ 0 < seenMaxMid (s0.getD 0) msgs)) :
    watchMain env s0 d0 msgs =
      { persisted := some (seenMaxMid (s0.getD 0) msgs), dedup := d0,
        appended := [], evaluated := [] } := by
  simp only [watchMain]
  rw [if_pos h]

/-- Unfolding of `main` on the steady path: pass 2 runs and the state
file is rewritten only when the tracking variable moved. -/
theorem watchMain_pass2 (env : RunEnv) (s0 : Option Int) (d0 : List String)
    (msgs : List MsgObj)
    (h : ¬(env.init_only = true ∨ (s0 = none ∧ 0 < seenMaxMid (s0.getD 0) msgs))) :
    watchMain env s0 d0 msgs =
      { persisted :=
          if (runLoop env (initSt (s0.getD 0) d0) msgs).last_mid = s0.getD 0
          then s0
          else some (runLoop env (initSt (s0.getD 0) d0) msgs).last_mid,
        dedup := (runLoop env (initSt (s0.getD 0) d0) msgs).dedup,
        appended := (runLoop env (initSt (s0.getD 0) d0) msgs).appended,
        evaluated := (runLoop env (initSt (s0.getD 0) d0) msgs).evaluated } := by
  simp only [watchMain, initSt]
  rw [if_neg h]

/-- C9: Watermark monotonicity.  For every run environment, starting
state, dedup store and transcript, the persisted `last_message_id` after
the run is at or above the persisted value before the run (reading a
missing value as 0, as `main` does): the init path persists
`seen_max_mid`, which starts at the old watermark, and the steady path
persists the loop's tracking variable, which only ever grows from the old
watermark. -/
theorem watchMain_watermark_monotone (env : RunEnv) (s0 : Option Int)
    (d0 : List String) (msgs : List MsgObj) :
    s0.getD 0 ≤ (watchMain env s0 d0 msgs).persisted.getD 0 := by
  by_cases h : env.init_only = true ∨ (s0 = none ∧ 0 < seenMaxMid (s0.getD 0) msgs)
  · rw [watchMain_init env s0 d0 msgs h]
    simpa using le_seenMaxMid msgs (s0.getD 0)
  · rw [watchMain_pass2 env s0 d0 msgs h]
    dsimp only
    split
    · exact le_refl _
    · simpa using runLoop_last_mid_le env msgs (initSt (s0.getD 0) d0)

/-- C10: the `check` mode of `ledger_dedupe.py` is read-only.  For every
key, metadata argument, clock value, starting state file and
decoder/encoder pair, running `check` leaves the state file exactly as it
was — on a corrupt file it fails without writing, and otherwise it only
loads and reports; only `mark` writes. -/
theorem dedupe_check_leaves_file_unchanged (key : String)
    (metaArg : Option MetaJson) (now : String) (file : Option String)
    (jp : String → Option DedupData) (jpr : DedupData → String) :
    (dedupeMain DedupeMode.check key metaArg now file jp jpr).2 = file := by
  unfold dedupeMain
  cases dedupeLoad file jp with
  | error e => rfl
  | ok data =>
    dsimp only
    split <;> rfl

/-- C4 (amended): corrupt local state is fatal for the dedup store but
not for the watermark store.  For every file content on which the decoder
fails, `load` of `ledger_dedupe.py` propagates the error (fatal to that
invocation), while `load_state` of `watch_buy_and_append.py` silently
returns the empty state — the run proceeds with a reset watermark instead
of aborting. -/
theorem corrupt_state_dedupe_fatal_watermark_reset :
    (∀ (s : String) (jp : String → Option DedupData), jp s = none →
      dedupeLoad (some s) jp = Except.error StorageErr.corrupt) ∧
    (∀ (s : String) (jp : String → Option WatchState), jp s = none →
      load_state (some s) jp = { lastMessageId := none }) := by
  constructor
  · intro s jp h
    simp [dedupeLoad, h]
  · intro s jp h
    simp [load_state, h]

/-- C4 counterexample: a watermark state file that exists but is not
valid structured data (the decoder fails on it) is loaded exactly as if
the file were absent — the empty state — contradicting the claim that
loading it raises a fatal error that aborts the run. -/
theorem corrupt_watermark_treated_as_empty :
    load_state (some "not valid structured data") (fun _ => none) =
      load_state none (fun _ => none) := rfl

/-- C4 witness: the amended theorem applied to a concrete corrupt file. -/
theorem corrupt_state_witness :
    dedupeLoad (some "oops") (fun _ => none) =
        Except.error StorageErr.corrupt ∧
    load_state (some "oops") (fun _ => none) = { lastMessageId := none } :=
  ⟨corrupt_state_dedupe_fatal_watermark_reset.1 "oops" (fun _ => none) rfl,
   corrupt_state_dedupe_fatal_watermark_reset.2 "oops" (fun _ => none) rfl⟩

/-- C5 (amended): the extractor is deterministic in everything except the
embedded wall-clock stamp.  For every heuristics instance, any two
invocations of `parse` on the same text agree on `raw_text`, `item`,
`total`, `currency`, `category`, `project_code`, `confidence`,
`missing_fields` and `needs_clarification`; only `timestamp_utc` (taken
from the clock, not the text) can differ. -/
theorem parse_deterministic_except_timestamp (H : Heuristics)
    (n1 n2 text : String) :
    (parse H n1 text).raw_text = (parse H n2 text).raw_text ∧
    (parse H n1 text).item = (parse H n2 text).item ∧
    (parse H n1 text).total = (parse H n2 text).total ∧
    (parse H n1 text).currency = (parse H n2 text).currency ∧
    (parse H n1 text).category = (parse H n2 text).category ∧
    (parse H n1 text).project_code = (parse H n2 text).project_code ∧
    (parse H n1 text).confidence = (parse H n2 text).confidence ∧
    (parse H n1 text).missing_fields = (parse H n2 text).missing_fields ∧
    (parse H n1 text).needs_clarification =
      (parse H n2 text).needs_clarification :=
  ⟨rfl, rfl, rfl, rfl, rfl, rfl, rfl, rfl, rfl⟩

/-- C5 counterexample: two invocations of `parse` on the same text at
different wall-clock instants yield different outputs — the
`timestamp_utc` field embeds the clock, so the output is not a function
of the text alone. -/
theorem parse_output_depends_on_clock :
    parse H0 "2026-01-01T00:00:00Z" "buy gloves" ≠
      parse H0 "2026-01-02T00:00:00Z" "buy gloves" := by
  intro h
  have := congrArg ParsedDraft.timestamp_utc h
  simp only [parse] at this
  exact absurd this (by decide)

/-- C1: Idempotency of repeated runs.  For every environment, starting
state and transcript, if a first run completed (it did not end early at
the per-run cap), then a second run of `main` on the unchanged transcript,
starting from the state the first run persisted, appends nothing, and
across both runs each message id is committed at most once (the combined
`appended` lists carry pairwise distinct ids): candidates at or below the
persisted watermark are skipped before any commit, and the dedup store is
consulted before any commit. -/
theorem orchestrator_second_run_appends_nothing (env : RunEnv)
    (s0 : Option Int) (d0 : List String) (msgs : List MsgObj)
    (h : (watchMain env s0 d0 msgs).appended.length < env.maxN) :
    (watchMain env (watchMain env s0 d0 msgs).persisted
        (watchMain env s0 d0 msgs).dedup msgs).appended = [] ∧
    (((watchMain env s0 d0 msgs).appended ++
        (watchMain env (watchMain env s0 d0 msgs).persisted
          (watchMain env s0 d0 msgs).dedup msgs).appended).map
      AppendedEntry.message_id).Nodup := by
  have KEY : ∀ m c, m ∈ msgs → m.cand = some c → commits env m = true →
      (c.message_id : Int) ≤ (watchMain env s0 d0 msgs).persisted.getD 0 := by
    by_cases hinit : env.init_only = true ∨
        (s0 = none ∧ 0 < seenMaxMid (s0.getD 0) msgs)
    · intro m c hm hc _
      rw [watchMain_init env s0 d0 msgs hinit]
      simpa using seenMaxMid_ge msgs (s0.getD 0) m c hm hc
    · intro m c hm hc hcom
      rw [watchMain_pass2 env s0 d0 msgs hinit] at h ⊢
      dsimp only at h ⊢
      have hfold := runLoop_eq_foldl env msgs (initSt (s0.getD 0) d0) h
      have hpers :
          (if (runLoop env (initSt (s0.getD 0) d0) msgs).last_mid = s0.getD 0
           then s0
           else some (runLoop env (initSt (s0.getD 0) d0) msgs).last_mid).getD 0
          = (runLoop env (initSt (s0.getD 0) d0) msgs).last_mid := by
        split
        · next heq => simp [heq]
        · rfl
      rw [hpers, hfold]
      exact foldl_commits_le env msgs (initSt (s0.getD 0) d0) m c hm hc hcom
  have hr2 : (watchMain env (watchMain env s0 d0 msgs).persisted
      (watchMain env s0 d0 msgs).dedup msgs).appended = [] := by
    by_cases hinit2 : env.init_only = true ∨
        ((watchMain env s0 d0 msgs).persisted = none ∧
          0 < seenMaxMid (((watchMain env s0 d0 msgs).persisted).getD 0) msgs)
    · rw [watchMain_init env _ _ msgs hinit2]
    · rw [watchMain_pass2 env _ _ msgs hinit2]
      dsimp only
      exact (runLoop_no_new env msgs
        (initSt ((watchMain env s0 d0 msgs).persisted.getD 0)
          (watchMain env s0 d0 msgs).dedup) KEY).1
  refine ⟨hr2, ?_⟩
  rw [hr2, List.append_nil]
  by_cases hinit : env.init_only = true ∨
      (s0 = none ∧ 0 < seenMaxMid (s0.getD 0) msgs)
  · rw [watchMain_init env s0 d0 msgs hinit]
    simp
  · rw [watchMain_pass2 env s0 d0 msgs hinit]
    dsimp only
    have hinv := runLoop_appendedInv env msgs (initSt (s0.getD 0) d0)
      ⟨fun e he => absurd he (List.not_mem_nil e), List.Pairwise.nil⟩
    exact hinv.2.imp (fun hlt => Nat.ne_of_lt hlt)

/-- C1 witness: a concrete single-candidate transcript under an
all-successful environment; the first run commits message 1, the second
run appends nothing. -/
theorem orchestrator_second_run_witness :
    (watchMain envOk (some 0) [] msgsC1).appended.length < envOk.maxN ∧
    ((watchMain envOk (watchMain envOk (some 0) [] msgsC1).persisted
        (watchMain envOk (some 0) [] msgsC1).dedup msgsC1).appended = [] ∧
      (((watchMain envOk (some 0) [] msgsC1).appended ++
          (watchMain envOk (watchMain envOk (some 0) [] msgsC1).persisted
            (watchMain envOk (some 0) [] msgsC1).dedup msgsC1).appended).map
        AppendedEntry.message_id).Nodup) :=
  ⟨by decide,
   orchestrator_second_run_appends_nothing envOk (some 0) [] msgsC1 (by decide)⟩

/-- C2 counterexample: with an append client that fails exactly on
message 5, a run over the transcript [message 5, message 6] (watermark 0)
does not abort at message 5: it goes on to commit message 6 and persists
watermark 6, past the failed message — so the next run does not retry
message 5 (5 ≤ 6 is skipped), contradicting the claim that the run aborts
at the failing message and leaves the watermark below it. -/
theorem commit_failure_does_not_abort_run :
    (watchMain envC2 (some 0) [] [msgC2a, msgC2b]).appended.map
        AppendedEntry.message_id = [6] ∧
    (watchMain envC2 (some 0) [] [msgC2a, msgC2b]).persisted = some 6 := by
  decide

/-- C2 (amended): on commit failure the orchestrator writes no dedup
entry for the message, records no summary entry, and does not advance the
watermark tracking variable on account of it — but it does not abort: it
continues the run with the remaining candidates (so the watermark may
still move past the failed message when a later candidate succeeds, in
which case the failed message is not retried on the next run). -/
theorem commit_failure_skips_and_continues (env : RunEnv) (st : LoopSt)
    (m : MsgObj) (c : Cand) (d : OrchDraft) (rest : List MsgObj)
    (h1 : m.cand = some c)
    (h2 : st.last_mid < (c.message_id : Int))
    (h3 : dedupKey env.group_id c.message_id ∉ st.dedup)
    (h4 : env.parserFn c.raw_text = some d)
    (h5 : d.needs_clarification = false)
    (h6 : env.appendFn (buildRow env m c d) = none)
    (h7 : st.appended.length < env.maxN) :
    step env st m = { st with evaluated := st.evaluated ++ [c.message_id] } ∧
    (step env st m).appended = st.appended ∧
    (step env st m).dedup = st.dedup ∧
    (step env st m).last_mid = st.last_mid ∧
    runLoop env st (m :: rest) =
      runLoop env { st with evaluated := st.evaluated ++ [c.message_id] }
        rest := by
  have hstep : step env st m =
      { st with evaluated := st.evaluated ++ [c.message_id] } := by
    simp [step, h1, h3, h4, h5, h6, not_le.mpr h2]
  refine ⟨hstep, by rw [hstep], by rw [hstep], by rw [hstep], ?_⟩
  dsimp only [runLoop]
  rw [hstep]
  rw [if_neg (not_le_of_lt h7)]

/-- C2 witness: the amended theorem applied to the concrete failing
message 5 under `envC2`, from a fresh state with watermark 0. -/
theorem commit_failure_witness :
    step envC2 (initSt 0 []) msgC2a =
      { initSt 0 [] with evaluated := (initSt 0 []).evaluated ++ [5] } ∧
    (step envC2 (initSt 0 []) msgC2a).appended = (initSt 0 []).appended ∧
    (step envC2 (initSt 0 []) msgC2a).dedup = (initSt 0 []).dedup ∧
    (step envC2 (initSt 0 []) msgC2a).last_mid = (initSt 0 []).last_mid ∧
    runLoop envC2 (initSt 0 []) [msgC2a] =
      runLoop envC2
        { initSt 0 [] with evaluated := (initSt 0 []).evaluated ++ [5] } [] :=
  commit_failure_skips_and_continues envC2 (initSt 0 []) msgC2a candC2
    draftC2 [] rfl (by decide) (by decide) rfl rfl (by decide) (by decide)

/-- C3 counterexample: with an extractor that reports an incomplete draft
for message 5 and starting watermark 2, the run leaves the persisted
watermark at 2 — not advanced past message 5, contradicting the claim —
and a second run evaluates message 5 again (its ghost evaluation trace is
`[5]`), contradicting the claimed permanent skip by watermark advance.
The last three conjuncts show the other side of the same coin: when a
later complete message 6 follows, its commit advances the watermark to 6,
so the second run evaluates nothing — message 5 is then dropped forever
without commit, which is why the non-advance cannot be amended into
re-evaluation on every subsequent run. -/
theorem incomplete_draft_does_not_advance_watermark :
    (watchMain envC3 (some 2) [] msgsC3).persisted = some 2 ∧
    (watchMain envC3 (some 2) [] msgsC3).appended = [] ∧
    (watchMain envC3 (some 2) [] msgsC3).dedup = [] ∧
    (watchMain envC3 (watchMain envC3 (some 2) [] msgsC3).persisted
        (watchMain envC3 (some 2) [] msgsC3).dedup msgsC3).evaluated = [5] ∧
    (watchMain envC3b (some 2) [] msgsC3b).persisted = some 6 ∧
    (watchMain envC3b (some 2) [] msgsC3b).appended.map
        AppendedEntry.message_id = [6] ∧
    (watchMain envC3b (watchMain envC3b (some 2) [] msgsC3b).persisted
        (watchMain envC3b (some 2) [] msgsC3b).dedup msgsC3b).evaluated
      = [] := by
  decide

/-- C3 (amended): for a candidate whose extracted draft needs
clarification, the loop body commits no row, writes no dedup entry, and
leaves the watermark tracking variable unchanged — only the ghost
evaluation trace records the visit — and the run continues with the
remaining candidates.  Such a message can never commit (`commits` is
`false` for it), and since the theorem quantifies over every state whose
watermark is below the id, it also says exactly when the message comes
back: it is evaluated again from any later state whose watermark is still
below its id, while the watermark may move past it through a later
candidate's commit, after which it is skipped without ever being
committed. -/
theorem incomplete_draft_leaves_state_unchanged (env : RunEnv) (st : LoopSt)
    (m : MsgObj) (c : Cand) (d : OrchDraft) (rest : List MsgObj)
    (h1 : m.cand = some c)
    (h2 : st.last_mid < (c.message_id : Int))
    (h3 : dedupKey env.group_id c.message_id ∉ st.dedup)
    (h4 : env.parserFn c.raw_text = some d)
    (h5 : d.needs_clarification = true)
    (h6 : st.appended.length < env.maxN) :
    step env st m = { st with evaluated := st.evaluated ++ [c.message_id] } ∧
    (step env st m).appended = st.appended ∧
    (step env st m).dedup = st.dedup ∧
    (step env st m).last_mid = st.last_mid ∧
    commits env m = false ∧
    runLoop env st (m :: rest) =
      runLoop env { st with evaluated := st.evaluated ++ [c.message_id] }
        rest := by
  have hstep : step env st m =
      { st with evaluated := st.evaluated ++ [c.message_id] } := by
    simp [step, h1, h3, h4, h5, not_le.mpr h2]
  refine ⟨hstep, by rw [hstep], by rw [hstep], by rw [hstep],
    by simp [commits, h1, h4, h5], ?_⟩
  dsimp only [runLoop]
  rw [hstep]
  rw [if_neg (not_le_of_lt h6)]

/-- C3 witness: the amended theorem applied to the concrete
incomplete-draft message 5 under `envC3`, from a fresh state with
watermark 2. -/
theorem incomplete_draft_witness :
    step envC3 (initSt 2 []) ⟨some candC3, 0⟩ =
      { initSt 2 [] with evaluated := (initSt 2 []).evaluated ++ [5] } ∧
    (step envC3 (initSt 2 []) ⟨some candC3, 0⟩).appended =
      (initSt 2 []).appended ∧
    (step envC3 (initSt 2 []) ⟨some candC3, 0⟩).dedup = (initSt 2 []).dedup ∧
    (step envC3 (initSt 2 []) ⟨some candC3, 0⟩).last_mid =
      (initSt 2 []).last_mid ∧
    commits envC3 ⟨some candC3, 0⟩ = false ∧
    runLoop envC3 (initSt 2 []) [⟨some candC3, 0⟩] =
      runLoop envC3
        { initSt 2 [] with evaluated := (initSt 2 []).evaluated ++ [5] } [] :=
  incomplete_draft_leaves_state_unchanged envC3 (initSt 2 [])
    ⟨some candC3, 0⟩ candC3 draftC3 [] rfl (by decide) (by decide) rfl rfl
    (by decide)

/-- C6 counterexample: a first run (no persisted watermark) over a
transcript whose single candidate carries message id 0 commits nothing
but also persists nothing — the init guard requires a positive maximum
id, so the run falls through to pass 2, skips the candidate, and leaves
the state file without a watermark, contradicting the claim that the
maximum observed id is always persisted when at least one candidate
exists. -/
theorem first_run_zero_id_persists_nothing :
    (watchMain envOk none [] msgsC6x).persisted = none ∧
    (watchMain envOk none [] msgsC6x).appended = [] := by
  decide

/-- C6 (amended): first-run safety holds whenever some candidate carries
a positive message id.  On a conversation with no prior persisted
watermark and at least one candidate of message id ≥ 1, a run commits
zero rows and persists the maximum observed candidate id as the new
watermark before returning.  (When every candidate has id 0 the run still
commits nothing, but persists no watermark.) -/
theorem first_run_commits_nothing_and_persists_max (env : RunEnv)
    (s0 : Option Int) (d0 : List String) (msgs : List MsgObj)
    (h0 : s0 = none)
    (h1 : ∃ m ∈ msgs, ∃ c, m.cand = some c ∧ 0 < c.message_id) :
    (watchMain env s0 d0 msgs).appended = [] ∧
    (watchMain env s0 d0 msgs).persisted = some (seenMaxMid 0 msgs) := by
  subst h0
  have hcond : env.init_only = true ∨
      ((none : Option Int) = none ∧
        0 < seenMaxMid ((none : Option Int).getD 0) msgs) := by
    right
    refine ⟨rfl, ?_⟩
    obtain ⟨m, hm, c, hc, hpos⟩ := h1
    have hle := seenMaxMid_ge msgs ((none : Option Int).getD 0) m c hm hc
    have hpos' : (0 : Int) < (c.message_id : Int) := by exact_mod_cast hpos
    exact lt_of_lt_of_le hpos' hle
  rw [watchMain_init env none d0 msgs hcond]
  exact ⟨rfl, rfl⟩

/-- C6 witness: the amended theorem applied to a concrete first run over
two candidates with ids 3 and 7; nothing is committed and the maximum, 7,
is persisted. -/
theorem first_run_witness :
    (∃ m ∈ msgsC6w, ∃ c, m.cand = some c ∧ 0 < c.message_id) ∧
    ((watchMain envOk none [] msgsC6w).appended = [] ∧
      (watchMain envOk none [] msgsC6w).persisted =
        some (seenMaxMid 0 msgsC6w)) :=
  ⟨⟨⟨some ⟨3, "a", "7", "buy a"⟩, 0⟩, by decide, ⟨3, "a", "7", "buy a"⟩,
     rfl, by decide⟩,
   first_run_commits_nothing_and_persists_max envOk none [] msgsC6w rfl
     ⟨⟨some ⟨3, "a", "7", "buy a"⟩, 0⟩, by decide, ⟨3, "a", "7", "buy a"⟩,
       rfl, by decide⟩⟩

/-- C8 counterexample: when the transcript presents a candidate with id
10 before one with id 5 (both above the watermark 0), the run evaluates
message 10 first and never evaluates message 5 at all (the watermark has
already moved to 10, so 5 is skipped and also never committed) — the
candidates above the watermark are not evaluated in ascending id order. -/
theorem out_of_order_candidate_is_skipped :
    (watchMain envOk (some 0) [] msgsC8).evaluated = [10] ∧
    (watchMain envOk (some 0) [] msgsC8).appended.map
      AppendedEntry.message_id = [10] := by
  decide

/-- C8 (amended): candidates are evaluated in transcript order, with no
sorting by message id; hence whenever the candidate stream itself appears
in ascending message-id order, the messages evaluated in steady state are
evaluated in ascending order (the evaluation trace is an in-order
sub-sequence of the candidate ids). -/
theorem sorted_stream_evaluated_in_order (env : RunEnv) (s0 : Option Int)
    (d0 : List String) (msgs : List MsgObj)
    (h : (candMids msgs).Pairwise (· ≤ ·)) :
    ((watchMain env s0 d0 msgs).evaluated).Pairwise (· ≤ ·) := by
  by_cases hinit : env.init_only = true ∨
      (s0 = none ∧ 0 < seenMaxMid (s0.getD 0) msgs)
  · rw [watchMain_init env s0 d0 msgs hinit]
    exact List.Pairwise.nil
  · rw [watchMain_pass2 env s0 d0 msgs hinit]
    dsimp only
    obtain ⟨t, ht, hs⟩ := runLoop_evaluated_sfx env msgs (initSt (s0.getD 0) d0)
    rw [ht]
    simpa using h.sublist hs

/-- C8 witness: the amended theorem applied to the same two candidates in
ascending order; the evaluation trace is ascending. -/
theorem sorted_stream_witness :
    (candMids msgsC8w).Pairwise (· ≤ ·) ∧
    ((watchMain envOk (some 0) [] msgsC8w).evaluated).Pairwise (· ≤ ·) :=
  ⟨by decide,
   sorted_stream_evaluated_in_order envOk (some 0) [] msgsC8w (by decide)⟩

/-- The scan returns `none` exactly when no row inside the scan window is
empty. -/
theorem findEmptyFrom_none_iff :
    ∀ (rs : List (List Cell)) (top i : Nat),
      findEmptyFrom i top rs = none ↔
        ∀ j, j < top → j < rs.length → rowIsEmpty (rs.getD j []) = false := by
  intro rs
  induction rs with
  | nil =>
    intro top i
    constructor
    · intro _ j _ hj
      exact absurd hj (by simp)
    · intro _
      cases top <;> rfl
  | cons r rs ih =>
    intro top i
    cases top with
    | zero =>
      constructor
      · intro _ j hj _
        exact absurd hj (Nat.not_lt_zero j)
      · intro _
        rfl
    | succ top =>
      by_cases hr : rowIsEmpty r = true
      · constructor
        · intro hcontra
          rw [findEmptyFrom, if_pos hr] at hcontra
          exact absurd hcontra (by simp)
        · intro hall
          have := hall 0 (Nat.succ_pos top) (by simp)
          rw [List.getD_cons_zero] at this
          rw [hr] at this
          exact absurd this (by simp)
      · rw [findEmptyFrom, if_neg hr]
        rw [ih top (i + 1)]
        constructor
        · intro hall j hj1 hj2
          cases j with
          | zero =>
            rw [List.getD_cons_zero]
            exact Bool.eq_false_iff.mpr hr
          | succ j =>
            rw [List.getD_cons_succ]
            exact hall j (Nat.lt_of_succ_lt_succ hj1) (Nat.lt_of_succ_lt_succ hj2)
        · intro hall j hj1 hj2
          have := hall (j + 1) (Nat.succ_lt_succ hj1) (Nat.succ_lt_succ hj2)
          rwa [List.getD_cons_succ] at this

/-- The scan returns `some k` exactly when `k` is the offset of the first
empty row inside the scan window. -/
theorem findEmptyFrom_some_iff :
    ∀ (rs : List (List Cell)) (top i k : Nat),
      findEmptyFrom i top rs = some k ↔
        ∃ j, k = i + j ∧ j < top ∧ j < rs.length ∧
          rowIsEmpty (rs.getD j []) = true ∧
          ∀ j', j' < j → rowIsEmpty (rs.getD j' []) = false := by
  intro rs
  induction rs with
  | nil =>
    intro top i k
    constructor
    · intro hcontra
      cases top <;> exact absurd hcontra (by simp [findEmptyFrom])
    · rintro ⟨j, _, _, hj, _⟩
      exact absurd hj (by simp)
  | cons r rs ih =>
    intro top i k
    cases top with
    | zero =>
      constructor
      · intro hcontra
        exact absurd hcontra (by simp [findEmptyFrom])
      · rintro ⟨j, _, hj, _⟩
        exact absurd hj (Nat.not_lt_zero j)
    | succ top =>
      by_cases hr : rowIsEmpty r = true
      · rw [findEmptyFrom, if_pos hr]
        constructor
        · intro hk
          refine ⟨0, ?_, Nat.succ_pos top, by simp, by simpa using hr, ?_⟩
          · have : i = k := by simpa using hk
            omega
          · intro j' hj'
            exact absurd hj' (Nat.not_lt_zero j')
        · rintro ⟨j, hk, _, _, hemp, hmin⟩
          cases j with
          | zero =>
            simp only [Option.some.injEq]
            omega
          | succ j =>
            have := hmin 0 (Nat.succ_pos j)
            rw [List.getD_cons_zero] at this
            rw [hr] at this
            exact absurd this (by simp)
      · rw [findEmptyFrom, if_neg hr]
        rw [ih top (i + 1) k]
        constructor
        · rintro ⟨j, hk, hj1, hj2, hemp, hmin⟩
          refine ⟨j + 1, by omega, Nat.succ_lt_succ hj1, Nat.succ_lt_succ hj2,
            by rwa [List.getD_cons_succ], ?_⟩
          intro j' hj'
          cases j' with
          | zero =>
            rw [List.getD_cons_zero]
            exact Bool.eq_false_iff.mpr hr
          | succ j' =>
            rw [List.getD_cons_succ]
            exact hmin j' (Nat.lt_of_succ_lt_succ hj')
        · rintro ⟨j, hk, hj1, hj2, hemp, hmin⟩
          cases j with
          | zero =>
            rw [List.getD_cons_zero] at hemp
            exact absurd hemp hr
          | succ j =>
            rw [List.getD_cons_succ] at hemp
            refine ⟨j, by omega, Nat.lt_of_succ_lt_succ hj1,
              Nat.lt_of_succ_lt_succ hj2, hemp, ?_⟩
            intro j' hj'
            have := hmin (j' + 1) (Nat.succ_lt_succ hj')
            rwa [List.getD_cons_succ] at this

/-- Reading inside the replicated block. -/
theorem getD_replicate_append {α : Type} (r d : α) (rest : List α) :
    ∀ (n j : Nat), j < n →
      (List.replicate n r ++ rest).getD j d = r := by
  intro n
  induction n with
  | zero => intro j hj; exact absurd hj (Nat.not_lt_zero j)
  | succ n ih =>
    intro j hj
    cases j with
    | zero => rfl
    | succ j =>
      rw [List.replicate_succ, List.cons_append, List.getD_cons_succ]
      exact ih j (Nat.lt_of_succ_lt_succ hj)

/-- Reading just past the replicated block. -/
theorem getD_replicate_append_end {α : Type} (r d e : α) :
    ∀ (n : Nat), (List.replicate n r ++ [e]).getD n d = e := by
  intro n
  induction n with
  | zero => rfl
  | succ n ih =>
    rw [List.replicate_succ, List.cons_append, List.getD_cons_succ]
    exact ih

/-- The 2001-row table defeats the scan: every row in the 2000-row window
is non-empty, so the scan reports `none`. -/
theorem bigTable_firstEmptyIndex : firstEmptyIndex bigTable = none := by
  rw [firstEmptyIndex, findEmptyFrom_none_iff]
  intro j hj _
  rw [bigTable, getD_replicate_append [some "x"] [] [[none]] 2000 j hj]
  decide

/-- C7 counterexample: with fill mode enabled on a table whose only empty
row sits at index 2000 (the 2001st row), the commit appends at the bottom
instead of overwriting the empty row — an empty row exists, yet the
fallback fires, because the scan only covers the first 2000 rows
(`list_rows(..., top=2000)`). -/
theorem fill_mode_misses_empty_row_beyond_window :
    graphCommit true bigTable [some "z"] =
      ({ mode := "append-bottom", filled_index := none },
        bigTable ++ [[some "z"]]) ∧
    rowIsEmpty (bigTable.getD 2000 []) = true := by
  constructor
  · rw [graphCommit]
    rw [if_pos rfl]
    rw [bigTable_firstEmptyIndex]
  · rw [bigTable, getD_replicate_append_end [some "x"] [] [none] 2000]
    decide

/-- C7 (amended): fill-first-empty semantics over the 2000-row scan
window.  With fill mode disabled the commit always appends at the bottom.
With fill mode enabled, when the scan reports index `i`, that index lies
in the window, its row is empty (every cell null or blank after
trimming), every earlier row is non-empty, the row is overwritten in
place and the index is reported; when the scan reports nothing, no row of
the first 2000 is empty and the commit falls back to appending at the
bottom. -/
theorem graphCommit_fill_semantics (table : List (List Cell))
    (row : List Cell) :
    (graphCommit false table row =
      ({ mode := "append-bottom", filled_index := none }, table ++ [row])) ∧
    (∀ i, firstEmptyIndex table = some i →
      graphCommit true table row =
        ({ mode := "fill-first-empty", filled_index := some i },
          table.set i row) ∧
      i < 2000 ∧ i < table.length ∧ rowIsEmpty (table.getD i []) = true ∧
      ∀ j, j < i → rowIsEmpty (table.getD j []) = false) ∧
    (firstEmptyIndex table = none →
      graphCommit true table row =
        ({ mode := "append-bottom", filled_index := none }, table ++ [row]) ∧
      ∀ j, j < 2000 → j < table.length →
        rowIsEmpty (table.getD j []) = false) := by
  refine ⟨rfl, ?_, ?_⟩
  · intro i hi
    refine ⟨by rw [graphCommit, if_pos rfl, hi], ?_⟩
    obtain ⟨j, hk, hj1, hj2, hj3, hj4⟩ :=
      (findEmptyFrom_some_iff table 2000 0 i).mp hi
    obtain rfl : i = j := by omega
    exact ⟨hj1, hj2, hj3, hj4⟩
  · intro hn
    refine ⟨by rw [graphCommit, if_pos rfl, hn], ?_⟩
    exact fun j h1 h2 => (findEmptyFrom_none_iff table 2000 0).mp hn j h1 h2

/-- C7 witness: the amended theorem applied to a concrete three-row table
whose second row is blank after trimming; fill mode overwrites index 1 in
place and reports it, and with fill mode disabled the same commit appends
at the bottom. -/
theorem graphCommit_fill_witness :
    (graphCommit true [[some "a"], [some " "], [some "b"]] [some "z"] =
      ({ mode := "fill-first-empty", filled_index := some 1 },
        [[some "a"], [some "z"], [some "b"]])) ∧
    (graphCommit false [[some "a"], [some " "], [some "b"]] [some "z"] =
      ({ mode := "append-bottom", filled_index := none },
        [[some "a"], [some " "], [some "b"], [some "z"]])) :=
  ⟨((graphCommit_fill_semantics [[some "a"], [some " "], [some "b"]]
      [some "z"]).2.1 1 (by decide)).1,
   (graphCommit_fill_semantics [[some "a"], [some " "], [some "b"]]
      [some "z"]).1⟩
